import Mathlib

/-!
Verification of the chronic-condition combination and cost aggregation pipeline
(01_basic_summaries.py) of the UHC repository.

The member table is modelled as a list of rows, each row an association list
from column name to rational value.  The pipeline pieces — chronic-column
selection, active-condition extraction, age bucketing, subset-occurrence
tallying, exact-set cost grouping, the left merge, and the demographic
distribution summarizer — are embedded as executable Lean functions, and the
specification claims are proved or refuted against them.
-/

/-- One member record (a row of the member table): an association list from
column name to numeric value.  The member file's values (condition flags,
dates, codes and payment amounts) are integral, so the value domain is ℤ.
A column that is absent reads as 0. -/
structure Member where
  vals : List (String × ℤ)
deriving DecidableEq

/-- Value of column c in member row m (missing columns read as 0). -/
def Member.get (m : Member) (c : String) : ℤ := (m.vals.lookup c).getD 0

/-- Substring test on character lists: pat occurs somewhere in s.
Mirrors the Python expression pat in s. -/
def hasSubstr (pat : List Char) : List Char → Bool
  | [] => pat.isEmpty
  | c :: t => pat.isPrefixOf (c :: t) || hasSubstr pat t

/-- The Python test "SP" in col. -/
def containsSP (c : String) : Bool := hasSubstr "SP".toList c.data

/-- chronic_cols = [col for col in df.columns if "SP" in col and col != "SP_STATE_CODE"]. -/
def chronic_cols (cols : List String) : List String :=
  cols.filter (fun c => containsSP c && c != "SP_STATE_CODE")

/-- The fixed, named set of tracked chronic-condition flag columns of the
member file, as enumerated by condition_mapping in 03_streamlit_app.py. -/
def tracked_condition_cols : List String :=
  ["SP_ALZHDMTA", "SP_CHF", "SP_CHRNKIDN", "SP_CNCR", "SP_COPD", "SP_DEPRESSN",
   "SP_DIABETES", "SP_ISCHMCHT", "SP_OSTEOPRS", "SP_RA_OA", "SP_STRKETIA"]

/-- get_active_conditions: the chronic columns whose flag equals 1 in the row,
in the canonical column order. -/
def get_active_conditions (chronic : List String) (m : Member) : List String :=
  chronic.filter (fun c => m.get c == 1)

/-- count_conditions: sum(row[col] == 1 for col in chronic_cols). -/
def count_conditions (chronic : List String) (m : Member) : ℕ :=
  chronic.countP (fun c => m.get c == 1)

/-- Lexicographic comparison of character lists by code point, the order
Python uses to compare strings. -/
def lexLe : List Char → List Char → Bool
  | [], _ => true
  | _ :: _, [] => false
  | a :: s, b :: t => if a = b then lexLe s t else decide (a < b)

/-- Python string comparison s1 <= s2 (lexicographic by code point). -/
def strLe (a b : String) : Bool := lexLe a.data b.data

/-- The string order as a relation. -/
def strLeP (a b : String) : Prop := strLe a b = true

instance : DecidableRel strLeP := fun a b =>
  inferInstanceAs (Decidable (strLe a b = true))

theorem lexLe_refl (s : List Char) : lexLe s s = true := by
  induction s with
  | nil => rfl
  | cons a s ih => simp [lexLe, ih]

theorem lexLe_total (s t : List Char) : lexLe s t = true ∨ lexLe t s = true := by
  induction s generalizing t with
  | nil => exact Or.inl rfl
  | cons a s ih =>
    cases t with
    | nil => exact Or.inr rfl
    | cons b t =>
      by_cases hab : a = b
      · subst hab
        rcases ih t with h | h
        · exact Or.inl (by simp [lexLe, h])
        · exact Or.inr (by simp [lexLe, h])
      · rcases lt_trichotomy a b with h | h | h
        · exact Or.inl (by simp [lexLe, hab, h])
        · exact absurd h hab
        · exact Or.inr (by simp [lexLe, Ne.symm hab, h])

theorem lexLe_trans {s t u : List Char} (h1 : lexLe s t = true)
    (h2 : lexLe t u = true) : lexLe s u = true := by
  induction s generalizing t u with
  | nil => rfl
  | cons a s ih =>
    cases t with
    | nil => simp [lexLe] at h1
    | cons b t =>
      cases u with
      | nil => simp [lexLe] at h2
      | cons c u =>
        by_cases hab : a = b <;> by_cases hbc : b = c
        · subst hab; subst hbc
          simp only [lexLe, if_pos rfl] at h1 h2 ⊢
          exact ih h1 h2
        · subst hab
          have hac : a < c := by simpa [lexLe, hbc] using h2
          simp [lexLe, ne_of_lt hac, hac]
        · subst hbc
          have hac : a < b := by simpa [lexLe, hab] using h1
          simp [lexLe, ne_of_lt hac, hac]
        · have h1a : a < b := by simpa [lexLe, hab] using h1
          have h2a : b < c := by simpa [lexLe, hbc] using h2
          have hac : a < c := lt_trans h1a h2a
          simp [lexLe, ne_of_lt hac, hac]

theorem lexLe_antisymm {s t : List Char} (h1 : lexLe s t = true)
    (h2 : lexLe t s = true) : s = t := by
  induction s generalizing t with
  | nil =>
    cases t with
    | nil => rfl
    | cons b t => simp [lexLe] at h2
  | cons a s ih =>
    cases t with
    | nil => simp [lexLe] at h1
    | cons b t =>
      by_cases hab : a = b
      · subst hab
        simp only [lexLe, if_pos rfl] at h1 h2
        rw [ih h1 h2]
      · have h1a : a < b := by simpa [lexLe, hab] using h1
        have h2a : b < a := by simpa [lexLe, Ne.symm hab] using h2
        exact absurd h2a (lt_asymm h1a)

instance : IsRefl String strLeP := ⟨fun a => lexLe_refl a.data⟩

instance : IsTotal String strLeP := ⟨fun a b => lexLe_total a.data b.data⟩

instance : IsTrans String strLeP := ⟨fun _ _ _ h1 h2 => lexLe_trans h1 h2⟩

instance : IsAntisymm String strLeP :=
  ⟨fun _ _ h1 h2 => String.ext (lexLe_antisymm h1 h2)⟩

/-- Python sorted on a list of strings (lexicographic order). -/
def sortStrings (l : List String) : List String := l.insertionSort strLeP

/-- Python ", ".join. -/
def joinComma : List String → String
  | [] => ""
  | [x] => x
  | x :: y :: t => x ++ ", " ++ joinComma (y :: t)

/-- active_conditions_str: the comma-joined active-condition list of a member
(the exact-set grouping key; empty string when no condition is active). -/
def active_conditions_str (chronic : List String) (m : Member) : String :=
  joinComma (get_active_conditions chronic m)

/-- age = 2008 - (BENE_BIRTH_DT // 10000): the birth-date column holds numeric
YYYYMMDD values and // is floor division. -/
def age (m : Member) : ℤ := 2008 - (m.get "BENE_BIRTH_DT").fdiv 10000

/-- age_bucket: pd.cut with bins [0, 64, 69, 74, 79, 84, 89, inf] and
right=False, i.e. the right-open intervals [0,64), [64,69), [69,74), [74,79),
[79,84), [84,89), [89,inf); a value below every bin edge gets no bucket (NaN). -/
def age_bucket (a : ℤ) : Option String :=
  if a < 0 then none
  else if a < 64 then some "25 - 64"
  else if a < 69 then some "65 - 69"
  else if a < 74 then some "70 - 74"
  else if a < 79 then some "75 - 79"
  else if a < 84 then some "80 - 84"
  else if a < 89 then some "85 - 89"
  else some "90+"

/-- Step A, per member: itertools.combinations(sorted(conditions), r) for
r = 1..len(conditions), i.e. every non-empty subsequence of the sorted
active-condition list. -/
def subsetTallies (conds : List String) : List (List String) :=
  (sortStrings conds).sublists.filter (fun s => !s.isEmpty)

/-- The subset keys one member contributes to the occurrence counter. -/
def memberTallies (chronic : List String) (m : Member) : List (List String) :=
  subsetTallies (get_active_conditions chronic m)

/-- The stream of all keys fed to the Counter all_combinations, over the whole
population. -/
def allTallies (pop : List Member) (chronic : List String) : List (List String) :=
  (pop.map (memberTallies chronic)).flatten

/-- all_combinations[key]: the occurrence count the Counter accumulates for a
canonical combination key. -/
def all_combinations_count (pop : List Member) (chronic : List String)
    (key : List String) : ℕ :=
  List.count key (allTallies pop chronic)

/-- First-occurrence deduplication: the distinct keys of a Counter in
insertion order. -/
def firstDedup {α : Type} [DecidableEq α] : List α → List α
  | [] => []
  | a :: t => a :: (firstDedup t).filter (fun b => b != a)

/-- The distinct keys of the Counter all_combinations. -/
def combination_keys (pop : List Member) (chronic : List String) : List (List String) :=
  firstDedup (allTallies pop chronic)

/-- One row of combination_df. -/
structure CombRow where
  number_of_conditions : ℕ
  combination : List String
  total_occurrence : ℕ
  combination_str : String
deriving DecidableEq

/-- combination_df: one row per distinct key of the Counter. -/
def combination_df (pop : List Member) (chronic : List String) : List CombRow :=
  (combination_keys pop chronic).map (fun combo =>
    { number_of_conditions := combo.length
      combination := combo
      total_occurrence := all_combinations_count pop chronic combo
      combination_str := joinComma combo })

/-- Columns of combination_df: pd.DataFrame built from a list of records has
exactly the keys of those records as columns, so a frame built from zero
records has no columns at all. -/
def combination_df_columns (pop : List Member) (chronic : List String) : List String :=
  if combination_df pop chronic = [] then []
  else ["number_of_conditions", "combination", "total_occurrence", "combination_str"]

/-- One row of agg_df: the exact-set key, the member count and the nine raw
payment sums. -/
structure AggRow where
  active_conditions_str : String
  member_count : ℕ
  ip_medicare : ℤ
  ip_beneficiary : ℤ
  ip_pp : ℤ
  op_medicare : ℤ
  op_beneficiary : ℤ
  op_pp : ℤ
  carrier_medicare : ℤ
  carrier_beneficiary : ℤ
  carrier_pp : ℤ
deriving DecidableEq

/-- The distinct group keys of df.groupby("active_conditions_str"), in the
sorted order pandas uses. -/
def group_keys (pop : List Member) (chronic : List String) : List String :=
  sortStrings (firstDedup (pop.map (active_conditions_str chronic)))

/-- The aggregation row of one group: count of DESYNPUF_ID and the sums of the
nine raw payment columns over the members of the group. -/
def mkAggRow (pop : List Member) (chronic : List String) (k : String) : AggRow :=
  let grp := pop.filter (fun m => active_conditions_str chronic m == k)
  { active_conditions_str := k
    member_count := grp.length
    ip_medicare := (grp.map (fun m => m.get "MEDREIMB_IP")).sum
    ip_beneficiary := (grp.map (fun m => m.get "BENRES_IP")).sum
    ip_pp := (grp.map (fun m => m.get "PPPYMT_IP")).sum
    op_medicare := (grp.map (fun m => m.get "MEDREIMB_OP")).sum
    op_beneficiary := (grp.map (fun m => m.get "BENRES_OP")).sum
    op_pp := (grp.map (fun m => m.get "PPPYMT_OP")).sum
    carrier_medicare := (grp.map (fun m => m.get "MEDREIMB_CAR")).sum
    carrier_beneficiary := (grp.map (fun m => m.get "BENRES_CAR")).sum
    carrier_pp := (grp.map (fun m => m.get "PPPYMT_CAR")).sum }

/-- The grouped aggregation before the empty-key relabelling. -/
def agg_rows (pop : List Member) (chronic : List String) : List AggRow :=
  (group_keys pop chronic).map (mkAggRow pop chronic)

/-- agg_df["active_conditions_str"].replace("", "NO CHRONIC CONDITIONS"). -/
def replaceEmptyKey (r : AggRow) : AggRow :=
  if r.active_conditions_str == "" then
    { r with active_conditions_str := "NO CHRONIC CONDITIONS" }
  else r

/-- agg_df after the sentinel relabelling of the empty key. -/
def agg_df (pop : List Member) (chronic : List String) : List AggRow :=
  (agg_rows pop chronic).map replaceEmptyKey

/-- One row of merged_df: the cost row together with the matched occurrence
row, none when the left join found no match (pandas fills NaN there). -/
structure MergedRow where
  agg : AggRow
  occ : Option CombRow
deriving DecidableEq

/-- Pandas left merge of the cost table with the occurrence table on
active_conditions_str = combination_str: each left row is emitted once per
matching right row, and once with nulls when nothing matches. -/
def leftMerge (agg : List AggRow) (comb : List CombRow) : List MergedRow :=
  agg.flatMap (fun a =>
    let ms := comb.filter (fun c => c.combination_str == a.active_conditions_str)
    if ms.isEmpty then [⟨a, none⟩] else ms.map (fun c => ⟨a, some c⟩))

/-- merged_df = agg_df.merge(combination_df, how="left", ...). -/
def merged_df (pop : List Member) (chronic : List String) : List MergedRow :=
  leftMerge (agg_df pop chronic) (combination_df pop chronic)

/-- The merge call itself: pandas raises KeyError when the right_on column is
not among the right frame's columns, which happens exactly when
combination_df was built from zero records. -/
def merge_step (pop : List Member) (chronic : List String) :
    Except String (List MergedRow) :=
  if "combination_str" ∈ combination_df_columns pop chronic then
    Except.ok (merged_df pop chronic)
  else Except.error "KeyError: combination_str"

/-- The number_of_conditions column of a merged row: NaN (none) on rows the
join left unmatched. -/
def number_of_conditions_col (r : MergedRow) : Option ℕ :=
  r.occ.map (fun c => c.number_of_conditions)

/-- chronic_condition_count: lambda x: "<3" if x < 3 else "Multiple", applied
to the number_of_conditions column.  On an unmatched row that column is NaN
and the Python comparison NaN < 3 is False, so the row is labelled
"Multiple". -/
def chronic_condition_count (x : Option ℕ) : String :=
  match x with
  | none => "Multiple"
  | some k => if k < 3 then "<3" else "Multiple"

/-- Round a rational to the nearest integer, ties to even (the rounding used
by pandas Series.round). -/
def round_half_even (q : ℚ) : ℤ :=
  if q - ⌊q⌋ < 1 / 2 then ⌊q⌋
  else if 1 / 2 < q - ⌊q⌋ then ⌊q⌋ + 1
  else if ⌊q⌋ % 2 = 0 then ⌊q⌋ else ⌊q⌋ + 1

/-- Series.round(d): round to d decimal digits, ties to even. -/
def round_to (d : ℕ) (q : ℚ) : ℚ := (round_half_even (q * 10 ^ d) : ℚ) / 10 ^ d

/-- One row of the distribution summary table: the grouping column name, the
cohort value, its share of the total population, and per condition its share
of that condition's sub-population. -/
structure SummaryRow where
  groupColumn : String
  cohort : String
  pctTotalPopulation : ℚ
  condShares : List (String × ℚ)
deriving DecidableEq

/-- The percentage a cohort represents inside one condition's sub-population:
value_counts(normalize=True) * 100, reindexed over the base cohorts with
fillna(0), then rounded to one digit.  A cohort absent from the sub-population
is NaN after the reindex and becomes 0. -/
def cond_share (pop : List Member) (groupVal : Member → String) (cond : String)
    (c : String) : ℚ :=
  let sub := pop.filter (fun m => m.get cond == 1)
  let n := (sub.filter (fun m => groupVal m == c)).length
  if n = 0 then 0 else round_to 1 ((n : ℚ) / sub.length * 100)

/-- summarize_chronic_conditions_by_group: one row per cohort value observed
in the base population (value_counts().sort_index()), carrying the base
population share and every condition's share column.  The grouping column is
modelled by its accessor groupVal. -/
def summarize_chronic_conditions_by_group (pop : List Member) (group_col : String)
    (groupVal : Member → String) (chronic : List String) : List SummaryRow :=
  let total_members := pop.length
  let cohorts := sortStrings (firstDedup (pop.map groupVal))
  cohorts.map (fun c =>
    { groupColumn := group_col
      cohort := c
      pctTotalPopulation :=
        round_to 2 ((List.count c (pop.map groupVal) : ℚ) / total_members * 100)
      condShares := chronic.map (fun cond => (cond, cond_share pop groupVal cond c)) })

/-! Helper lemmas on the building blocks. -/

theorem mem_firstDedup {α : Type} [DecidableEq α] {l : List α} {x : α} :
    x ∈ firstDedup l ↔ x ∈ l := by
  induction l with
  | nil => simp [firstDedup]
  | cons a t ih =>
    simp only [firstDedup, List.mem_cons, List.mem_filter, ih, bne_iff_ne, ne_eq]
    constructor
    · rintro (rfl | ⟨h, -⟩)
      · exact Or.inl rfl
      · exact Or.inr h
    · rintro (rfl | h)
      · exact Or.inl rfl
      · by_cases hx : x = a
        · exact Or.inl hx
        · exact Or.inr ⟨h, hx⟩

theorem nodup_firstDedup {α : Type} [DecidableEq α] (l : List α) :
    (firstDedup l).Nodup := by
  induction l with
  | nil => simp [firstDedup]
  | cons a t ih =>
    refine List.nodup_cons.mpr ⟨?_, ih.filter _⟩
    intro h
    have := (List.mem_filter.mp h).2
    simp at this

theorem sortStrings_perm (l : List String) : (sortStrings l).Perm l :=
  List.perm_insertionSort _ l

theorem sortStrings_sorted (l : List String) : (sortStrings l).Sorted strLeP :=
  List.sorted_insertionSort _ l

theorem sortStrings_nodup {l : List String} (h : l.Nodup) : (sortStrings l).Nodup :=
  (sortStrings_perm l).nodup_iff.mpr h

theorem mem_sortStrings {l : List String} {x : String} :
    x ∈ sortStrings l ↔ x ∈ l := (sortStrings_perm l).mem_iff

theorem mem_get_active_conditions {chronic : List String} {m : Member} {c : String} :
    c ∈ get_active_conditions chronic m ↔ c ∈ chronic ∧ m.get c = 1 := by
  simp [get_active_conditions, List.mem_filter]

theorem get_active_conditions_nodup {chronic : List String} (hchr : chronic.Nodup)
    (m : Member) : (get_active_conditions chronic m).Nodup := hchr.filter _

theorem get_active_conditions_subset (chronic : List String) (m : Member) :
    get_active_conditions chronic m ⊆ chronic :=
  fun _ hc => (List.mem_filter.mp hc).1

theorem mem_memberTallies {chronic : List String} {m : Member} {s : List String} :
    s ∈ memberTallies chronic m ↔
      s ≠ [] ∧ List.Sublist s (sortStrings (get_active_conditions chronic m)) := by
  simp only [memberTallies, subsetTallies, List.mem_filter, List.mem_sublists,
    Bool.not_eq_eq_eq_not, Bool.not_true, List.isEmpty_eq_false_iff_exists_mem]
  constructor
  · rintro ⟨hsub, h⟩
    rcases h with ⟨a, ha⟩
    exact ⟨by rintro rfl; simp at ha, hsub⟩
  · rintro ⟨hne, hsub⟩
    refine ⟨hsub, ?_⟩
    cases s with
    | nil => exact absurd rfl hne
    | cons a t => exact ⟨a, List.mem_cons_self a t⟩

theorem memberTallies_nodup {chronic : List String} (hchr : chronic.Nodup)
    (m : Member) : (memberTallies chronic m).Nodup :=
  (List.nodup_sublists.mpr (sortStrings_nodup (get_active_conditions_nodup hchr m))).filter _

theorem countP_eq_sum_map {α : Type} (p : α → Bool) (l : List α) :
    l.countP p = (l.map (fun a => if p a then 1 else 0)).sum := by
  induction l with
  | nil => rfl
  | cons a t ih => by_cases h : p a <;> simp [List.countP_cons, ih, h, Nat.add_comm]

theorem all_combinations_count_eq_sum (pop : List Member) (chronic : List String)
    (key : List String) :
    all_combinations_count pop chronic key =
      (pop.map (fun m => List.count key (memberTallies chronic m))).sum := by
  rw [all_combinations_count, allTallies, List.count_flatten, List.map_map]
  rfl

theorem count_eq_one_of_nodup_mem {α : Type} [BEq α] [LawfulBEq α] {l : List α}
    {a : α} (hn : l.Nodup) (h : a ∈ l) : List.count a l = 1 := by
  induction l with
  | nil => simp at h
  | cons b t ih =>
    rcases List.mem_cons.mp h with rfl | h2
    · rw [List.count_cons_self]
      have hat : a ∉ t := (List.nodup_cons.mp hn).1
      simp [List.count_eq_zero_of_not_mem hat]
    · have hab : a ≠ b := by
        rintro rfl; exact (List.nodup_cons.mp hn).1 h2
      rw [List.count_cons_of_ne hab, ih (List.nodup_cons.mp hn).2 h2]

theorem memberTallies_count {chronic : List String} (hchr : chronic.Nodup)
    (m : Member) (s : List String) :
    List.count s (memberTallies chronic m) =
      if s ≠ [] ∧ List.Sublist s (sortStrings (get_active_conditions chronic m))
      then 1 else 0 := by
  by_cases h : s ∈ memberTallies chronic m
  · rw [if_pos (mem_memberTallies.mp h)]
    exact count_eq_one_of_nodup_mem (memberTallies_nodup hchr m) h
  · rw [if_neg (fun hc => h (mem_memberTallies.mpr hc))]
    exact List.count_eq_zero_of_not_mem h

theorem mem_allTallies {pop : List Member} {chronic : List String} {s : List String} :
    s ∈ allTallies pop chronic ↔ ∃ m ∈ pop, s ∈ memberTallies chronic m := by
  simp [allTallies, List.mem_flatten]

theorem mem_combination_keys {pop : List Member} {chronic : List String}
    {s : List String} :
    s ∈ combination_keys pop chronic ↔ s ∈ allTallies pop chronic :=
  mem_firstDedup

theorem tally_key_shape {pop : List Member} {chronic : List String} {s : List String}
    (hchr : chronic.Nodup) (h : s ∈ allTallies pop chronic) :
    s ≠ [] ∧ s.Sorted strLeP ∧ s.Nodup ∧ s ⊆ chronic := by
  rcases mem_allTallies.mp h with ⟨m, -, hm⟩
  rcases mem_memberTallies.mp hm with ⟨hne, hsub⟩
  refine ⟨hne, ?_, ?_, ?_⟩
  · exact (sortStrings_sorted _).sublist hsub
  · exact (sortStrings_nodup (get_active_conditions_nodup hchr m)).sublist hsub
  · intro c hc
    exact get_active_conditions_subset chronic m
      (mem_sortStrings.mp (hsub.subset hc))

theorem memberTallies_length {chronic : List String} (hchr : chronic.Nodup)
    (m : Member) :
    (memberTallies chronic m).length =
      2 ^ (get_active_conditions chronic m).length - 1 := by
  have hLn : (sortStrings (get_active_conditions chronic m)).Nodup :=
    sortStrings_nodup (get_active_conditions_nodup hchr m)
  have hone :
      List.count ([] : List String)
        (sortStrings (get_active_conditions chronic m)).sublists = 1 :=
    count_eq_one_of_nodup_mem (List.nodup_sublists.mpr hLn)
      (List.mem_sublists.mpr (List.nil_sublist _))
  have hsplit :=
    List.length_eq_countP_add_countP
      (p := fun s : List String => !s.isEmpty)
      (l := (sortStrings (get_active_conditions chronic m)).sublists)
  have hcong :
      List.countP (fun s : List String => decide ¬((!s.isEmpty) = true))
        (sortStrings (get_active_conditions chronic m)).sublists
      = List.count ([] : List String)
          (sortStrings (get_active_conditions chronic m)).sublists := by
    rw [List.count_eq_countP]
    refine List.countP_congr ?_
    intro s _
    cases s <;> simp
  have hlen : (sortStrings (get_active_conditions chronic m)).sublists.length =
      2 ^ (get_active_conditions chronic m).length := by
    rw [List.length_sublists, (sortStrings_perm _).length_eq]
  have hfil : (memberTallies chronic m).length =
      List.countP (fun s : List String => !s.isEmpty)
        (sortStrings (get_active_conditions chronic m)).sublists :=
    (List.countP_eq_length_filter _ _).symm
  rw [hfil]
  omega

/-! Concrete data used to witness the claim theorems: the member-table schema
with two chronic-condition columns, and the three-member population of the
specification's test scenario. -/

def wCols : List String :=
  ["DESYNPUF_ID", "BENE_BIRTH_DT", "SP_CHF", "SP_STATE_CODE", "SP_DIABETES",
   "MEDREIMB_IP", "BENRES_IP", "PPPYMT_IP", "MEDREIMB_OP", "BENRES_OP",
   "PPPYMT_OP", "MEDREIMB_CAR", "BENRES_CAR", "PPPYMT_CAR"]

def wChronic : List String := chronic_cols wCols

def wM1 : Member := ⟨[("DESYNPUF_ID", 101), ("SP_CHF", 1), ("MEDREIMB_IP", 10)]⟩

def wM2 : Member :=
  ⟨[("DESYNPUF_ID", 102), ("SP_CHF", 1), ("SP_DIABETES", 1), ("MEDREIMB_IP", 20)]⟩

def wM3 : Member := ⟨[("DESYNPUF_ID", 103), ("MEDREIMB_IP", 5)]⟩

def wPop : List Member := [wM1, wM2, wM3]

/-- C1: a member with k active conditions contributes exactly the 2^k - 1
distinct non-empty subsets of its active condition set to the occurrence
tally, each exactly once and keyed as a sorted tuple, and consequently the
occurrence count of every singleton combination equals the number of members
whose flag is 1, regardless of their other conditions. -/
theorem occurrence_tally_subsets_and_singletons
    (chronic : List String) (hchr : chronic.Nodup) (pop : List Member) :
    (∀ m ∈ pop,
        (memberTallies chronic m).length =
            2 ^ (get_active_conditions chronic m).length - 1
        ∧ (memberTallies chronic m).Nodup
        ∧ ∀ s, s ∈ memberTallies chronic m ↔
            s ≠ [] ∧ List.Sublist s (sortStrings (get_active_conditions chronic m)))
    ∧ ∀ X ∈ chronic,
        all_combinations_count pop chronic [X]
          = (pop.filter (fun m => m.get X == 1)).length := by
  constructor
  · intro m _
    exact ⟨memberTallies_length hchr m, memberTallies_nodup hchr m,
      fun s => mem_memberTallies⟩
  · intro X hX
    rw [all_combinations_count_eq_sum, ← List.countP_eq_length_filter,
      countP_eq_sum_map]
    refine congrArg List.sum (List.map_congr_left ?_)
    intro m _
    rw [memberTallies_count hchr]
    by_cases hx : m.get X = 1
    · have hmem : X ∈ sortStrings (get_active_conditions chronic m) :=
        mem_sortStrings.mpr (mem_get_active_conditions.mpr ⟨hX, hx⟩)
      rw [if_pos ⟨by simp, List.singleton_sublist.mpr hmem⟩, if_pos (by simp [hx])]
    · have hmem : ¬ List.Sublist [X] (sortStrings (get_active_conditions chronic m)) := by
        intro hs
        exact hx (mem_get_active_conditions.mp
          (mem_sortStrings.mp (List.singleton_sublist.mp hs))).2
      rw [if_neg (fun hc => hmem hc.2), if_neg (by simp [hx])]

/-- Witness for C1 at the concrete three-member scenario population. -/
theorem occurrence_tally_subsets_and_singletons_witness :
    wChronic.Nodup
    ∧ "SP_CHF" ∈ wChronic
    ∧ all_combinations_count wPop wChronic ["SP_CHF"]
        = (wPop.filter (fun m => m.get "SP_CHF" == 1)).length :=
  ⟨by decide, by decide,
    (occurrence_tally_subsets_and_singletons wChronic (by decide) wPop).2
      "SP_CHF" (by decide)⟩

/-- C4: among the tallied combinations, if S is a subset of T then the
occurrence count of T is at most the occurrence count of S: adding conditions
to a combination never increases its count. -/
theorem occurrence_count_antitone
    (chronic : List String) (hchr : chronic.Nodup) (pop : List Member)
    (S T : List String)
    (hS : S ∈ combination_keys pop chronic)
    (hT : T ∈ combination_keys pop chronic)
    (hsub : S ⊆ T) :
    all_combinations_count pop chronic T ≤ all_combinations_count pop chronic S := by
  have hSs := tally_key_shape hchr (mem_combination_keys.mp hS)
  rw [all_combinations_count_eq_sum, all_combinations_count_eq_sum]
  refine List.sum_le_sum ?_
  intro m _
  rw [memberTallies_count hchr, memberTallies_count hchr]
  by_cases hTm : T ≠ [] ∧ List.Sublist T (sortStrings (get_active_conditions chronic m))
  · rw [if_pos hTm]
    have hssub : S ⊆ sortStrings (get_active_conditions chronic m) :=
      fun x hx => hTm.2.subset (hsub hx)
    have hsl : List.Sublist S (sortStrings (get_active_conditions chronic m)) :=
      List.sublist_of_subperm_of_sorted (hSs.2.2.1.subperm hssub) hSs.2.1
        (sortStrings_sorted _)
    rw [if_pos ⟨hSs.1, hsl⟩]
  · rw [if_neg hTm]
    exact Nat.zero_le _

/-- Witness for C4: in the scenario population the pair
S = [SP_CHF] ⊆ T = [SP_CHF, SP_DIABETES] satisfies the inequality. -/
theorem occurrence_count_antitone_witness :
    wChronic.Nodup
    ∧ ["SP_CHF"] ∈ combination_keys wPop wChronic
    ∧ ["SP_CHF", "SP_DIABETES"] ∈ combination_keys wPop wChronic
    ∧ all_combinations_count wPop wChronic ["SP_CHF", "SP_DIABETES"]
        ≤ all_combinations_count wPop wChronic ["SP_CHF"] :=
  ⟨by decide, by decide, by decide,
    occurrence_count_antitone wChronic (by decide) wPop _ _ (by decide) (by decide)
      (by decide)⟩


theorem sum_map_filter_bne {β : Type} [DecidableEq β] (g : β → ℕ) (l : List β)
    (a : β) (hl : l.Nodup) :
    ((l.filter (fun b => b != a)).map g).sum + (if a ∈ l then g a else 0)
      = (l.map g).sum := by
  induction l with
  | nil => simp
  | cons b t ih =>
    rcases List.nodup_cons.mp hl with ⟨hbt, ht⟩
    by_cases hba : b = a
    · subst hba
      have hfil : t.filter (fun x => x != b) = t := by
        refine List.filter_eq_self.mpr ?_
        intro x hx
        simp only [bne_iff_ne, ne_eq]
        intro h
        exact hbt (h ▸ hx)
      simp [hfil, Nat.add_comm]
    · have hfb : (b != a) = true := by simpa using hba
      simp only [List.filter_cons, hfb, if_true, List.map_cons, List.sum_cons]
      have hcond : (if a ∈ b :: t then g a else 0) = (if a ∈ t then g a else 0) := by
        by_cases hat : a ∈ t
        · rw [if_pos (List.mem_cons_of_mem b hat), if_pos hat]
        · have hna : a ∉ b :: t := by
            intro hmem2
            rcases List.mem_cons.mp hmem2 with h | h
            · exact hba h.symm
            · exact hat h
          rw [if_neg hna, if_neg hat]
      rw [hcond, Nat.add_assoc, ih ht]

theorem sum_countP_firstDedup {β : Type} [DecidableEq β] (keys : List β) :
    ((firstDedup keys).map (fun k => keys.countP (fun x => x == k))).sum
      = keys.length := by
  induction keys with
  | nil => simp [firstDedup]
  | cons a t ih =>
    simp only [firstDedup, List.map_cons, List.sum_cons, List.length_cons]
    have hstep : ((firstDedup t).filter (fun b => b != a)).map
          (fun k => (a :: t).countP (fun x => x == k))
        = ((firstDedup t).filter (fun b => b != a)).map
            (fun k => t.countP (fun x => x == k)) := by
      refine List.map_congr_left ?_
      intro k hk
      have hne : ¬ k = a := by
        have := (List.mem_filter.mp hk).2
        simpa using this
      have hka : (a == k) = false := beq_eq_false_iff_ne.mpr (fun h => hne h.symm)
      simp [List.countP_cons, hka]
    rw [hstep]
    have hsub := sum_map_filter_bne (fun k => t.countP (fun x => x == k))
      (firstDedup t) a (nodup_firstDedup t)
    simp only [] at hsub
    have hind : (if a ∈ firstDedup t then t.countP (fun x => x == a) else 0)
        = t.countP (fun x => x == a) := by
      by_cases hat : a ∈ t
      · rw [if_pos (mem_firstDedup.mpr hat)]
      · rw [if_neg (fun hc => hat (mem_firstDedup.mp hc))]
        symm
        rw [List.countP_eq_zero]
        intro x hx
        simp only [beq_iff_eq]
        exact fun h => hat (h ▸ hx)
    rw [hind] at hsub
    rw [ih] at hsub
    have hhead : (a :: t).countP (fun x => x == a)
        = t.countP (fun x => x == a) + 1 := by
      simp [List.countP_cons]
    rw [hhead]
    omega

/-- C2: grouping by the exact active-conditions key partitions the population:
every member's key hits exactly one group, the member counts sum to the
population size, and each group row carries exactly the member count and the
nine payment sums of the members of that group. -/
theorem exact_set_grouping_partitions (pop : List Member) (chronic : List String) :
    (∀ m ∈ pop,
        List.count (active_conditions_str chronic m) (group_keys pop chronic) = 1)
    ∧ ((agg_df pop chronic).map (fun r => r.member_count)).sum = pop.length
    ∧ ∀ k ∈ group_keys pop chronic,
        mkAggRow pop chronic k ∈ agg_rows pop chronic
        ∧ (mkAggRow pop chronic k).member_count
            = (pop.filter (fun m => active_conditions_str chronic m == k)).length
        ∧ (mkAggRow pop chronic k).ip_medicare
            = ((pop.filter (fun m => active_conditions_str chronic m == k)).map
                (fun m => m.get "MEDREIMB_IP")).sum
        ∧ (mkAggRow pop chronic k).ip_beneficiary
            = ((pop.filter (fun m => active_conditions_str chronic m == k)).map
                (fun m => m.get "BENRES_IP")).sum
        ∧ (mkAggRow pop chronic k).ip_pp
            = ((pop.filter (fun m => active_conditions_str chronic m == k)).map
                (fun m => m.get "PPPYMT_IP")).sum
        ∧ (mkAggRow pop chronic k).op_medicare
            = ((pop.filter (fun m => active_conditions_str chronic m == k)).map
                (fun m => m.get "MEDREIMB_OP")).sum
        ∧ (mkAggRow pop chronic k).op_beneficiary
            = ((pop.filter (fun m => active_conditions_str chronic m == k)).map
                (fun m => m.get "BENRES_OP")).sum
        ∧ (mkAggRow pop chronic k).op_pp
            = ((pop.filter (fun m => active_conditions_str chronic m == k)).map
                (fun m => m.get "PPPYMT_OP")).sum
        ∧ (mkAggRow pop chronic k).carrier_medicare
            = ((pop.filter (fun m => active_conditions_str chronic m == k)).map
                (fun m => m.get "MEDREIMB_CAR")).sum
        ∧ (mkAggRow pop chronic k).carrier_beneficiary
            = ((pop.filter (fun m => active_conditions_str chronic m == k)).map
                (fun m => m.get "BENRES_CAR")).sum
        ∧ (mkAggRow pop chronic k).carrier_pp
            = ((pop.filter (fun m => active_conditions_str chronic m == k)).map
                (fun m => m.get "PPPYMT_CAR")).sum := by
  refine ⟨?_, ?_, ?_⟩
  · intro m hm
    have hmem : active_conditions_str chronic m ∈ group_keys pop chronic :=
      mem_sortStrings.mpr (mem_firstDedup.mpr
        (List.mem_map_of_mem (active_conditions_str chronic) hm))
    exact count_eq_one_of_nodup_mem
      (sortStrings_nodup (nodup_firstDedup _)) hmem
  · have h1 : (agg_df pop chronic).map (fun r => r.member_count)
        = (agg_rows pop chronic).map (fun r => r.member_count) := by
      rw [agg_df, List.map_map]
      refine List.map_congr_left ?_
      intro r _
      by_cases hk : r.active_conditions_str == ""
      · simp [replaceEmptyKey, hk]
      · simp [replaceEmptyKey, hk]
    rw [h1, agg_rows, List.map_map]
    have h2 : ((group_keys pop chronic).map
          ((fun r : AggRow => r.member_count) ∘ mkAggRow pop chronic)).sum
        = ((group_keys pop chronic).map
            (fun k => (pop.map (active_conditions_str chronic)).countP
              (fun x => x == k))).sum := by
      refine congrArg List.sum (List.map_congr_left ?_)
      intro k _
      simp only [Function.comp, mkAggRow]
      rw [← List.countP_eq_length_filter, List.countP_map]
      rfl
    rw [h2]
    have h3 : ((group_keys pop chronic).map
          (fun k => (pop.map (active_conditions_str chronic)).countP
            (fun x => x == k))).sum
        = ((firstDedup (pop.map (active_conditions_str chronic))).map
            (fun k => (pop.map (active_conditions_str chronic)).countP
              (fun x => x == k))).sum :=
      ((sortStrings_perm _).map _).sum_eq
    rw [h3, sum_countP_firstDedup, List.length_map]
  · intro k hk
    exact ⟨List.mem_map_of_mem (mkAggRow pop chronic) hk,
      rfl, rfl, rfl, rfl, rfl, rfl, rfl, rfl, rfl, rfl⟩

/-- Witness for C2 at the scenario population: the key of member wM1 hits
exactly one group, and the member counts over the groups sum to 3. -/
theorem exact_set_grouping_partitions_witness :
    wM1 ∈ wPop
    ∧ List.count (active_conditions_str wChronic wM1) (group_keys wPop wChronic) = 1
    ∧ ((agg_df wPop wChronic).map (fun r => r.member_count)).sum = wPop.length :=
  ⟨by decide,
    (exact_set_grouping_partitions wPop wChronic).1 wM1 (by decide),
    (exact_set_grouping_partitions wPop wChronic).2.1⟩

theorem append_comma_inj {a b s t : List Char} (ha : ',' ∉ a) (hb : ',' ∉ b)
    (h : a ++ ',' :: s = b ++ ',' :: t) : a = b ∧ s = t := by
  induction a generalizing b with
  | nil =>
    cases b with
    | nil => simpa using h
    | cons d b2 =>
      simp only [List.nil_append, List.cons_append, List.cons.injEq] at h
      exact absurd (h.1 ▸ List.mem_cons_self d b2) (h.1 ▸ hb)
  | cons c a2 ih =>
    cases b with
    | nil =>
      simp only [List.cons_append, List.nil_append, List.cons.injEq] at h
      exact absurd (h.1 ▸ List.mem_cons_self c a2) (h.1 ▸ ha)
    | cons d b2 =>
      simp only [List.cons_append, List.cons.injEq] at h
      have ha2 : ',' ∉ a2 := fun hc => ha (List.mem_cons_of_mem c hc)
      have hb2 : ',' ∉ b2 := fun hc => hb (List.mem_cons_of_mem d hc)
      rcases ih ha2 hb2 h.2 with ⟨hab, hst⟩
      exact ⟨by rw [h.1, hab], hst⟩

theorem comma_mem_joinComma (x y : String) (t : List String) :
    ',' ∈ (joinComma (x :: y :: t)).data := by
  show ',' ∈ (x ++ ", " ++ joinComma (y :: t)).data
  simp [String.data_append]

theorem joinComma_inj {l1 l2 : List String}
    (h1 : ∀ s ∈ l1, ',' ∉ s.data ∧ s ≠ "")
    (h2 : ∀ s ∈ l2, ',' ∉ s.data ∧ s ≠ "")
    (he : joinComma l1 = joinComma l2) : l1 = l2 := by
  induction l1 generalizing l2 with
  | nil =>
    cases l2 with
    | nil => rfl
    | cons y ys =>
      cases ys with
      | nil => exact absurd he.symm (h2 y (by simp)).2
      | cons y2 ys2 =>
        exfalso
        have hc := comma_mem_joinComma y y2 ys2
        rw [← he] at hc
        exact absurd hc (List.not_mem_nil _)
  | cons x xs ih =>
    cases l2 with
    | nil =>
      cases xs with
      | nil => exact absurd he (h1 x (by simp)).2
      | cons x2 xs2 =>
        exfalso
        have hc := comma_mem_joinComma x x2 xs2
        rw [he] at hc
        exact absurd hc (List.not_mem_nil _)
    | cons y ys =>
      cases xs with
      | nil =>
        cases ys with
        | nil =>
          have : x = y := he
          rw [this]
        | cons y2 ys2 =>
          exfalso
          have hc := comma_mem_joinComma y y2 ys2
          rw [← he] at hc
          exact (h1 x (by simp)).1 hc
      | cons x2 xs2 =>
        cases ys with
        | nil =>
          exfalso
          have hc := comma_mem_joinComma x x2 xs2
          rw [he] at hc
          exact (h2 y (by simp)).1 hc
        | cons y2 ys2 =>
          have hd := congrArg String.data he
          have hsep : (", " : String).data = [',', ' '] := rfl
          simp only [joinComma, String.data_append, hsep, List.append_assoc,
            List.cons_append, List.nil_append] at hd
          rcases append_comma_inj (h1 x (by simp)).1 (h2 y (by simp)).1 hd
            with ⟨hxy, hrest⟩
          simp only [List.cons.injEq] at hrest
          have hx : x = y := String.ext hxy
          have hjoin : joinComma (x2 :: xs2) = joinComma (y2 :: ys2) :=
            String.ext hrest.2
          have htl : x2 :: xs2 = y2 :: ys2 :=
            ih (fun s hs => h1 s (List.mem_cons_of_mem x hs))
              (fun s hs => h2 s (List.mem_cons_of_mem y hs)) hjoin
          rw [hx, htl]

theorem containsSP_ne_empty {c : String} (h : containsSP c = true) : c ≠ "" := by
  rintro rfl
  revert h
  decide

theorem sentinel_no_SP : containsSP "NO CHRONIC CONDITIONS" = false := by decide

theorem sentinel_no_comma : ',' ∉ ("NO CHRONIC CONDITIONS" : String).data := by decide

theorem good_of_mem_chronic {chronic : List String}
    (hSP : ∀ c ∈ chronic, containsSP c = true)
    (hcomma : ∀ c ∈ chronic, ',' ∉ c.data) {c : String} (hc : c ∈ chronic) :
    ',' ∉ c.data ∧ c ≠ "" :=
  ⟨hcomma c hc, containsSP_ne_empty (hSP c hc)⟩

theorem active_conditions_str_ne_sentinel {chronic : List String}
    (hSP : ∀ c ∈ chronic, containsSP c = true) (m : Member) :
    active_conditions_str chronic m ≠ "NO CHRONIC CONDITIONS" := by
  have hsub := get_active_conditions_subset chronic m
  rw [active_conditions_str]
  cases hx : get_active_conditions chronic m with
  | nil => decide
  | cons x xs =>
    cases xs with
    | nil =>
      intro he
      have hxc : x ∈ chronic := hsub (hx ▸ List.mem_cons_self x [])
      have := hSP x hxc
      rw [show joinComma [x] = x from rfl] at he
      rw [he] at this
      exact absurd this (by rw [sentinel_no_SP]; simp)
    | cons y ys =>
      intro he
      have hc := comma_mem_joinComma x y ys
      rw [he] at hc
      exact sentinel_no_comma hc

theorem length_filter_beq_le_one_of_nodup_map {α β : Type} [BEq β] [LawfulBEq β]
    {f : α → β} {l : List α} (h : (l.map f).Nodup) (b : β) :
    (l.filter (fun x => f x == b)).length ≤ 1 := by
  induction l with
  | nil => simp
  | cons c t ih =>
    have h2 : (f c :: t.map f).Nodup := by simpa using h
    rcases List.nodup_cons.mp h2 with ⟨hct, htn⟩
    by_cases hcb : (f c == b) = true
    · have hfil : t.filter (fun x => f x == b) = [] := by
        rw [List.filter_eq_nil_iff]
        intro x hx hxb
        exact hct (by
          have : f x = f c := by
            rw [eq_of_beq hxb, eq_of_beq hcb]
          exact this ▸ List.mem_map_of_mem f hx)
      simp [List.filter_cons, hcb, hfil]
    · simp only [List.filter_cons, hcb, if_false]
      exact ih htn

theorem length_filter_beq_eq_one_of_nodup_map {α β : Type} [BEq β] [LawfulBEq β]
    {f : α → β} {l : List α} (h : (l.map f).Nodup) {a : α} (ha : a ∈ l) :
    (l.filter (fun x => f x == f a)).length = 1 := by
  have hle := length_filter_beq_le_one_of_nodup_map h (f a)
  have hmem : a ∈ l.filter (fun x => f x == f a) :=
    List.mem_filter.mpr ⟨ha, by simp⟩
  have hpos : 0 < (l.filter (fun x => f x == f a)).length :=
    List.length_pos.mpr (fun hnil => by simp [hnil] at hmem)
  omega

theorem combination_df_strs_nodup {pop : List Member} {chronic : List String}
    (hchr : chronic.Nodup)
    (hSP : ∀ c ∈ chronic, containsSP c = true)
    (hcomma : ∀ c ∈ chronic, ',' ∉ c.data) :
    ((combination_df pop chronic).map (fun c => c.combination_str)).Nodup := by
  rw [combination_df, List.map_map]
  refine List.Nodup.map_on ?_ (nodup_firstDedup _)
  intro S hS T hT he
  have hSsub := (tally_key_shape hchr (mem_firstDedup.mp hS)).2.2.2
  have hTsub := (tally_key_shape hchr (mem_firstDedup.mp hT)).2.2.2
  exact joinComma_inj
    (fun s hs => good_of_mem_chronic hSP hcomma (hSsub hs))
    (fun s hs => good_of_mem_chronic hSP hcomma (hTsub hs)) he

theorem mem_group_keys_exists {pop : List Member} {chronic : List String}
    {k : String} (hk : k ∈ group_keys pop chronic) :
    ∃ m ∈ pop, k = active_conditions_str chronic m := by
  have := mem_firstDedup.mp (mem_sortStrings.mp hk)
  rcases List.mem_map.mp this with ⟨m, hm, he⟩
  exact ⟨m, hm, he.symm⟩

theorem agg_df_keys_eq (pop : List Member) (chronic : List String) :
    (agg_df pop chronic).map (fun r => r.active_conditions_str)
      = (group_keys pop chronic).map
          (fun k => if k = "" then "NO CHRONIC CONDITIONS" else k) := by
  rw [agg_df, agg_rows, List.map_map, List.map_map]
  refine List.map_congr_left ?_
  intro k _
  by_cases hk : k = ""
  · simp [Function.comp, replaceEmptyKey, mkAggRow, hk]
  · simp [Function.comp, replaceEmptyKey, mkAggRow, hk]

theorem agg_df_keys_nodup {pop : List Member} {chronic : List String}
    (hSP : ∀ c ∈ chronic, containsSP c = true) :
    ((agg_df pop chronic).map (fun r => r.active_conditions_str)).Nodup := by
  rw [agg_df_keys_eq]
  refine List.Nodup.map_on ?_ (sortStrings_nodup (nodup_firstDedup _))
  intro k1 hk1 k2 hk2 he
  by_cases h1 : k1 = "" <;> by_cases h2 : k2 = ""
  · rw [h1, h2]
  · rw [if_pos h1, if_neg h2] at he
    rcases mem_group_keys_exists hk2 with ⟨m, -, hm⟩
    exact absurd (hm ▸ he.symm) (active_conditions_str_ne_sentinel hSP m)
  · rw [if_neg h1, if_pos h2] at he
    rcases mem_group_keys_exists hk1 with ⟨m, -, hm⟩
    exact absurd (hm ▸ he) (active_conditions_str_ne_sentinel hSP m)
  · rw [if_neg h1, if_neg h2] at he
    exact he

theorem leftMerge_mem_spec (agg : List AggRow) (comb : List CombRow) {r : MergedRow}
    (hr : r ∈ leftMerge agg comb) :
    r.agg ∈ agg
    ∧ (∀ c, r.occ = some c →
        c ∈ comb ∧ c.combination_str = r.agg.active_conditions_str)
    ∧ (r.occ = none → ∀ c ∈ comb,
        c.combination_str ≠ r.agg.active_conditions_str) := by
  rcases List.mem_flatMap.mp hr with ⟨a, ha, hmem⟩
  by_cases h : (comb.filter
      (fun c => c.combination_str == a.active_conditions_str)).isEmpty = true
  · simp only [h, if_true] at hmem
    have hreq : r = ⟨a, none⟩ := by simpa using hmem
    subst hreq
    refine ⟨ha, ?_, ?_⟩
    · intro c hc
      simp at hc
    · intro _ c hcmem hceq
      have hnil := List.isEmpty_iff.mp h
      have := List.filter_eq_nil_iff.mp hnil c hcmem
      exact this (by simp [hceq])
  · simp only [h, if_false] at hmem
    rcases List.mem_map.mp hmem with ⟨c0, hc0, hreq⟩
    subst hreq
    rcases List.mem_filter.mp hc0 with ⟨hc0mem, hc0eq⟩
    refine ⟨ha, ?_, ?_⟩
    · intro c hc
      have hcc : c = c0 := by simpa using hc.symm
      subst hcc
      exact ⟨hc0mem, by simpa using hc0eq⟩
    · intro hnone
      simp at hnone

theorem leftMerge_mem_left (agg : List AggRow) (comb : List CombRow) {a : AggRow}
    (ha : a ∈ agg) : ∃ r ∈ leftMerge agg comb, r.agg = a := by
  by_cases h : (comb.filter
      (fun c => c.combination_str == a.active_conditions_str)).isEmpty = true
  · refine ⟨⟨a, none⟩, List.mem_flatMap.mpr ⟨a, ha, ?_⟩, rfl⟩
    simp [h]
  · have hne : comb.filter
        (fun c => c.combination_str == a.active_conditions_str) ≠ [] := by
      intro hnil
      exact h (by simp [hnil])
    rcases List.exists_mem_of_ne_nil _ hne with ⟨c0, hc0⟩
    refine ⟨⟨a, some c0⟩, List.mem_flatMap.mpr ⟨a, ha, ?_⟩, rfl⟩
    simp only [h, if_false]
    exact List.mem_map.mpr ⟨c0, hc0, rfl⟩

theorem leftMerge_count_key (agg : List AggRow) (comb : List CombRow)
    (hak : (agg.map (fun r => r.active_conditions_str)).Nodup)
    (hck : (comb.map (fun c => c.combination_str)).Nodup)
    {a : AggRow} (ha : a ∈ agg) :
    ((leftMerge agg comb).filter
      (fun r => r.agg.active_conditions_str == a.active_conditions_str)).length
      = 1 := by
  have hterm : ∀ a2 ∈ agg,
      List.countP
          (fun r : MergedRow =>
            r.agg.active_conditions_str == a.active_conditions_str)
          (if (comb.filter
              (fun c => c.combination_str == a2.active_conditions_str)).isEmpty
           then ([⟨a2, none⟩] : List MergedRow)
           else (comb.filter
              (fun c => c.combination_str == a2.active_conditions_str)).map
                (fun c => ⟨a2, some c⟩))
        = if a2.active_conditions_str == a.active_conditions_str
          then 1 else 0 := by
    intro a2 _
    by_cases hkey : (a2.active_conditions_str == a.active_conditions_str) = true
    · rw [if_pos hkey]
      by_cases hms : (comb.filter
          (fun c => c.combination_str == a2.active_conditions_str)).isEmpty = true
      · rw [if_pos hms]
        simp [List.countP_cons, hkey]
      · rw [if_neg hms]
        rw [List.countP_map]
        have hconst : List.countP
            ((fun r : MergedRow =>
              r.agg.active_conditions_str == a.active_conditions_str) ∘
              (fun c => (⟨a2, some c⟩ : MergedRow)))
            (comb.filter
              (fun c => c.combination_str == a2.active_conditions_str))
            = (comb.filter
              (fun c => c.combination_str == a2.active_conditions_str)).length := by
          rw [← List.countP_true]
          refine List.countP_congr ?_
          intro c _
          simp [Function.comp, hkey]
        rw [hconst]
        have hle := length_filter_beq_le_one_of_nodup_map hck
          a2.active_conditions_str
        have hne : comb.filter
            (fun c => c.combination_str == a2.active_conditions_str) ≠ [] := by
          intro hnil
          exact hms (by simp [hnil])
        have hpos : 0 < (comb.filter
            (fun c => c.combination_str == a2.active_conditions_str)).length :=
          List.length_pos.mpr hne
        omega
    · rw [if_neg hkey]
      by_cases hms : (comb.filter
          (fun c => c.combination_str == a2.active_conditions_str)).isEmpty = true
      · rw [if_pos hms]
        simp [List.countP_cons, hkey]
      · rw [if_neg hms]
        rw [List.countP_map]
        rw [show ((fun r : MergedRow =>
              r.agg.active_conditions_str == a.active_conditions_str) ∘
              (fun c => (⟨a2, some c⟩ : MergedRow)))
            = fun _ => (a2.active_conditions_str == a.active_conditions_str)
          from rfl]
        simp [hkey]
  rw [← List.countP_eq_length_filter, leftMerge, List.flatMap_def,
    List.countP_flatten, List.map_map]
  simp only [Function.comp_def]
  rw [List.map_congr_left hterm]
  rw [← countP_eq_sum_map, List.countP_eq_length_filter]
  exact length_filter_beq_eq_one_of_nodup_map hak ha

/-- C3: the merged combination report is a left join of the exact-set cost
table with the occurrence table: every cost row appears, each cost-row key
appears in exactly one merged row, a cost row with no matching combination
keeps null occurrence fields, and every occurrence row that does appear
matches some cost row's exact-set key (unmatched occurrence rows are
dropped). -/
theorem merged_report_left_join (pop : List Member) (chronic : List String)
    (hchr : chronic.Nodup)
    (hSP : ∀ c ∈ chronic, containsSP c = true)
    (hcomma : ∀ c ∈ chronic, ',' ∉ c.data) :
    (∀ a ∈ agg_df pop chronic,
        ((merged_df pop chronic).filter
          (fun r => r.agg.active_conditions_str == a.active_conditions_str)).length
            = 1
        ∧ ∃ r ∈ merged_df pop chronic, r.agg = a)
    ∧ ∀ r ∈ merged_df pop chronic,
        r.agg ∈ agg_df pop chronic
        ∧ (∀ c, r.occ = some c → c ∈ combination_df pop chronic
            ∧ c.combination_str = r.agg.active_conditions_str)
        ∧ (r.occ = none → ∀ c ∈ combination_df pop chronic,
            c.combination_str ≠ r.agg.active_conditions_str) := by
  constructor
  · intro a ha
    exact ⟨leftMerge_count_key _ _ (agg_df_keys_nodup hSP)
        (combination_df_strs_nodup hchr hSP hcomma) ha,
      leftMerge_mem_left _ _ ha⟩
  · intro r hr
    exact leftMerge_mem_spec _ _ hr

/-- Witness for C3: in the scenario population, the cost row of the exact set
SP_CHF appears in exactly one row of the merged report. -/
theorem merged_report_left_join_witness :
    wChronic.Nodup
    ∧ (∀ c ∈ wChronic, containsSP c = true)
    ∧ (∀ c ∈ wChronic, ',' ∉ c.data)
    ∧ replaceEmptyKey (mkAggRow wPop wChronic "SP_CHF") ∈ agg_df wPop wChronic
    ∧ ((merged_df wPop wChronic).filter
        (fun r => r.agg.active_conditions_str ==
          (replaceEmptyKey (mkAggRow wPop wChronic "SP_CHF")).active_conditions_str)).length
        = 1 :=
  ⟨by decide, by decide, by decide, by decide,
    ((merged_report_left_join wPop wChronic (by decide) (by decide) (by decide)).1
      (replaceEmptyKey (mkAggRow wPop wChronic "SP_CHF")) (by decide)).1⟩

theorem replaceEmptyKey_member_count (r : AggRow) :
    (replaceEmptyKey r).member_count = r.member_count := by
  by_cases h : r.active_conditions_str == "" <;> simp [replaceEmptyKey, h]

theorem replaceEmptyKey_key (r : AggRow) :
    (replaceEmptyKey r).active_conditions_str
      = if r.active_conditions_str = "" then "NO CHRONIC CONDITIONS"
        else r.active_conditions_str := by
  by_cases h : r.active_conditions_str = "" <;> simp [replaceEmptyKey, h]

/-- C10: in the merged report, every row whose occurrence fields are non-null
has total_occurrence at least member_count: each member whose exact condition
set equals the key contributes its own full set to the tally of that key. -/
theorem merged_total_occurrence_ge_member_count (pop : List Member)
    (chronic : List String) (hchr : chronic.Nodup)
    (hSP : ∀ c ∈ chronic, containsSP c = true)
    (hcomma : ∀ c ∈ chronic, ',' ∉ c.data) :
    ∀ r ∈ merged_df pop chronic, ∀ c, r.occ = some c →
      r.agg.member_count ≤ c.total_occurrence := by
  intro r hr c hc
  rcases leftMerge_mem_spec _ _ hr with ⟨hagg, hsome, -⟩
  rcases hsome c hc with ⟨hcmem, hcstr⟩
  rcases List.mem_map.mp hcmem with ⟨combo, hcombo, hceq⟩
  subst hceq
  have hcstr2 : joinComma combo = r.agg.active_conditions_str := hcstr
  rcases List.mem_map.mp hagg with ⟨a0, ha0, hra⟩
  rcases List.mem_map.mp ha0 with ⟨k, hk, ha0eq⟩
  have hcsh := tally_key_shape hchr (mem_combination_keys.mp hcombo)
  have hmc : r.agg.member_count
      = (pop.filter (fun m => active_conditions_str chronic m == k)).length := by
    rw [← hra, ← ha0eq, replaceEmptyKey_member_count]
    rfl
  have hks : r.agg.active_conditions_str
      = if k = "" then "NO CHRONIC CONDITIONS" else k := by
    rw [← hra, ← ha0eq, replaceEmptyKey_key]
    rfl
  rw [hks] at hcstr2
  by_cases hk0 : k = ""
  · exfalso
    rw [if_pos hk0] at hcstr2
    rcases hcsh with ⟨hne, -, -, hsub⟩
    cases hcombo2 : combo with
    | nil => exact hne hcombo2
    | cons x xs =>
      cases xs with
      | nil =>
        have hx : x ∈ chronic := hsub (hcombo2 ▸ List.mem_cons_self x [])
        have hxSP := hSP x hx
        rw [hcombo2] at hcstr2
        rw [show joinComma [x] = x from rfl] at hcstr2
        rw [hcstr2] at hxSP
        rw [sentinel_no_SP] at hxSP
        exact Bool.false_ne_true hxSP
      | cons y ys =>
        have hcm := comma_mem_joinComma x y ys
        rw [← hcombo2] at hcm
        rw [hcstr2] at hcm
        exact sentinel_no_comma hcm
  · rw [if_neg hk0] at hcstr2
    show r.agg.member_count ≤ all_combinations_count pop chronic combo
    rw [hmc, ← List.countP_eq_length_filter, countP_eq_sum_map,
      all_combinations_count_eq_sum]
    refine List.sum_le_sum ?_
    intro m _
    by_cases hkey : (active_conditions_str chronic m == k) = true
    · rw [if_pos hkey]
      have hjoin : joinComma (get_active_conditions chronic m) = joinComma combo := by
        have h1 : active_conditions_str chronic m = k := eq_of_beq hkey
        rw [active_conditions_str] at h1
        rw [h1, hcstr2]
      have hact : get_active_conditions chronic m = combo :=
        joinComma_inj
          (fun s hs => good_of_mem_chronic hSP hcomma
            (get_active_conditions_subset chronic m hs))
          (fun s hs => good_of_mem_chronic hSP hcomma (hcsh.2.2.2 hs)) hjoin
      have hsorted : sortStrings (get_active_conditions chronic m)
          = get_active_conditions chronic m := by
        rw [hact]
        exact List.Sorted.insertionSort_eq (hact ▸ hcsh.2.1)
      have hmem : combo ∈ memberTallies chronic m := by
        refine mem_memberTallies.mpr ⟨hcsh.1, ?_⟩
        rw [hsorted, hact]
      have := count_eq_one_of_nodup_mem (memberTallies_nodup hchr m) hmem
      omega
    · rw [if_neg hkey]
      exact Nat.zero_le _

/-- Witness for C10: in the scenario population the merged row of the exact
set SP_CHF carries occurrence count 2 and member count 1. -/
theorem merged_total_occurrence_ge_member_count_witness :
    wChronic.Nodup
    ∧ (∀ c ∈ wChronic, containsSP c = true)
    ∧ (∀ c ∈ wChronic, ',' ∉ c.data)
    ∧ ∃ r ∈ merged_df wPop wChronic, ∃ c, r.occ = some c
        ∧ r.agg.member_count ≤ c.total_occurrence := by
  refine ⟨by decide, by decide, by decide, ?_⟩
  have hmem : (⟨replaceEmptyKey (mkAggRow wPop wChronic "SP_CHF"),
      some ⟨1, ["SP_CHF"], 2, "SP_CHF"⟩⟩ : MergedRow) ∈ merged_df wPop wChronic :=
    by decide
  exact ⟨_, hmem, _, rfl,
    merged_total_occurrence_ge_member_count wPop wChronic (by decide) (by decide)
      (by decide) _ hmem _ rfl⟩

/-- C5: evaluating the pipeline on a mixed population (one member with
SP_CHF, one member with zero active conditions): here the occurrence table is
non-empty, so the merge succeeds and the labelling line runs.  The sentinel
cost row is present and its member has fewer than 3 conditions, yet the left
join leaves its number_of_conditions null and the null comparison labels the
row "Multiple", not "<3" (the matched SP_CHF row is labelled "<3" as the
claim says). -/
theorem chronic_condition_count_sentinel_bug :
    count_conditions wChronic wM3 = 0
    ∧ merge_step [wM1, wM3] wChronic
        = Except.ok (merged_df [wM1, wM3] wChronic)
    ∧ (merged_df [wM1, wM3] wChronic).map
        (fun r => (r.agg.active_conditions_str,
          chronic_condition_count (number_of_conditions_col r)))
        = [("NO CHRONIC CONDITIONS", "Multiple"), ("SP_CHF", "<3")] :=
  ⟨by decide, rfl, by decide⟩

/-- C6: the age_bucket bin edges are off by one against the labels: with
right-open bins cut at [0, 64, 69, ...], age 64 lands in the bucket labelled
"65 - 69" and age 89 in the bucket labelled "90+", while the claim (and the
labels themselves) put 64 in "25 - 64" and 89 in "85 - 89". -/
theorem age_bucket_off_by_one_bug :
    age ⟨[("BENE_BIRTH_DT", 19440201)]⟩ = 64
    ∧ age_bucket 64 = some "65 - 69"
    ∧ age_bucket 89 = some "90+"
    ∧ age_bucket 63 = some "25 - 64"
    ∧ age_bucket 90 = some "90+" := by decide

/-- C7: on an empty member table the subset tally, the cost grouping and the
distribution summary all produce empty tables, but the merge raises: the
occurrence frame built from zero records has no combination_str column, so
pandas merge fails with a KeyError instead of returning an empty table. -/
theorem empty_population_merge_raises (chronic : List String) :
    merge_step [] chronic = Except.error "KeyError: combination_str"
    ∧ combination_df [] chronic = []
    ∧ agg_df [] chronic = []
    ∧ ∀ (gcol : String) (gval : Member → String) (chr2 : List String),
        summarize_chronic_conditions_by_group [] gcol gval chr2 = [] :=
  ⟨rfl, rfl, rfl, fun _ _ _ => rfl⟩

/-- C8 as stated is false: the chronic columns are selected from the input
header by the substring test "SP" in col, not from a fixed tracked list, so
an extra column whose name merely contains SP is silently included in
active_conditions and total_conditions. -/
theorem unknown_SP_column_contributes :
    "EXTRA_SP_FLAG" ∉ tracked_condition_cols
    ∧ "EXTRA_SP_FLAG" ∈ chronic_cols (wCols ++ ["EXTRA_SP_FLAG"])
    ∧ get_active_conditions (chronic_cols (wCols ++ ["EXTRA_SP_FLAG"]))
        ⟨[("EXTRA_SP_FLAG", 1)]⟩ = ["EXTRA_SP_FLAG"]
    ∧ count_conditions (chronic_cols (wCols ++ ["EXTRA_SP_FLAG"]))
        ⟨[("EXTRA_SP_FLAG", 1)]⟩ = 1 := by decide

/-- C8 amended: a column contributes to a member's active_conditions exactly
when it is an input column whose name contains the substring SP, is not
SP_STATE_CODE, and carries flag value 1; every other input column is
ignored. -/
theorem active_conditions_membership (cols : List String) (m : Member)
    (c : String) :
    c ∈ get_active_conditions (chronic_cols cols) m
      ↔ c ∈ cols ∧ containsSP c = true ∧ c ≠ "SP_STATE_CODE" ∧ m.get c = 1 := by
  simp only [get_active_conditions, chronic_cols, List.mem_filter,
    Bool.and_eq_true, bne_iff_ne, ne_eq, beq_iff_eq]
  tauto

/-- C9: the distribution summary has one row per cohort value observed in the
base population (so every observed value appears), and a cohort in which a
condition has zero members is reported in that row with a 0 share, not
omitted. -/
theorem distribution_summary_complete (pop : List Member) (gcol : String)
    (gval : Member → String) (chronic : List String) :
    ((summarize_chronic_conditions_by_group pop gcol gval chronic).map
        (fun r => r.cohort) = sortStrings (firstDedup (pop.map gval)))
    ∧ (∀ m ∈ pop, gval m ∈
        (summarize_chronic_conditions_by_group pop gcol gval chronic).map
          (fun r => r.cohort))
    ∧ ∀ c2 ∈ sortStrings (firstDedup (pop.map gval)), ∀ cond ∈ chronic,
        ((pop.filter (fun m => m.get cond == 1)).filter
          (fun m => gval m == c2)).length = 0 →
        ∃ r ∈ summarize_chronic_conditions_by_group pop gcol gval chronic,
          r.cohort = c2 ∧ (cond, (0 : ℚ)) ∈ r.condShares := by
  have hmap : (summarize_chronic_conditions_by_group pop gcol gval chronic).map
      (fun r => r.cohort) = sortStrings (firstDedup (pop.map gval)) := by
    rw [summarize_chronic_conditions_by_group, List.map_map]
    exact List.map_id _
  refine ⟨hmap, ?_, ?_⟩
  · intro m hm
    rw [hmap]
    exact mem_sortStrings.mpr (mem_firstDedup.mpr (List.mem_map_of_mem gval hm))
  · intro c2 hc2 cond hcond hlen
    have hcs : cond_share pop gval cond c2 = 0 := by
      rw [cond_share]
      simp only [hlen, if_pos]
    refine ⟨_, List.mem_map_of_mem _ hc2, rfl, ?_⟩
    have hmem := List.mem_map_of_mem
      (fun cond => (cond, cond_share pop gval cond c2)) hcond
    simp only [] at hmem
    rw [hcs] at hmem
    exact hmem

def wGval : Member → String :=
  fun m => if m.get "BENE_RACE_CD" == 1 then "race1" else "race2"

def wM4 : Member := ⟨[("BENE_RACE_CD", 1)]⟩

/-- Witness for C9: in a two-member population where only the race2 member
has SP_CHF, the race1 cohort row reports a 0 share for SP_CHF. -/
theorem distribution_summary_complete_witness :
    "race1" ∈ sortStrings (firstDedup ([wM1, wM4].map wGval))
    ∧ "SP_CHF" ∈ wChronic
    ∧ (([wM1, wM4].filter (fun m => m.get "SP_CHF" == 1)).filter
        (fun m => wGval m == "race1")).length = 0
    ∧ ∃ r ∈ summarize_chronic_conditions_by_group [wM1, wM4] "BENE_RACE_CD"
          wGval wChronic,
        r.cohort = "race1" ∧ ("SP_CHF", (0 : ℚ)) ∈ r.condShares :=
  ⟨by decide, by decide, by decide,
    (distribution_summary_complete [wM1, wM4] "BENE_RACE_CD" wGval wChronic).2.2
      "race1" (by decide) "SP_CHF" (by decide) (by decide)⟩
